import Mathlib

/-!
Verification of the worldview-quiz web application.

This file gives a shallow embedding, in Lean, of the parts of the
application's source that the specification's testable properties talk
about, and proves or refutes each property against that embedding:

* the retry wrapper `withRetry` (App.tsx),
* the batched option fetch's response validation
  (`generateBatchQuestionOptions`, App.tsx),
* the quiz restart `handleStartQuiz` and the Fisher-Yates shuffle (App.tsx),
* the share/load round trip and the score computations (Results.tsx, App.tsx),
* the duplicate-save guard (Results.tsx),
* the answer-submission logic of `QuestionCard.handleNext`
  (QuestionCard.tsx), and
* the voice-session `submitAnswer` tool-call handler (App.tsx).

JavaScript strings are modelled as Lean `String`, JS numbers as `Int`
(every number the claims touch is integral), thrown exceptions as
`Except`, and `Map` objects as insertion-ordered association lists.
-/

namespace Quiz

/-! ## String containment (JS `String.prototype.includes`) -/

/-- Does the pattern occur at the head of the character list? -/
def leadMatch : List Char → List Char → Bool
  | _, [] => true
  | [], _ :: _ => false
  | c :: cs, p :: ps => c == p && leadMatch cs ps

/-- Does the pattern occur contiguously anywhere in the character list? -/
def containsPat : List Char → List Char → Bool
  | [], pat => pat.isEmpty
  | s@(_ :: rest), pat => leadMatch s pat || containsPat rest pat

/-- JS `s.includes(pat)`: does `pat` occur as a contiguous substring of `s`? -/
def includesStr (s pat : String) : Bool :=
  containsPat s.data pat.data

/-! ## The retry wrapper `withRetry` (App.tsx lines 87-106)

```js
async function withRetry(apiCall, maxRetries = 3, initialDelay = 1000) {
    let attempt = 0;
    while (attempt < maxRetries) {
        try { return await apiCall(); }
        catch (error) {
            const isRateLimitError = error.toString().includes('429')
                || error.toString().includes('RESOURCE_EXHAUSTED');
            if (isRateLimitError && attempt < maxRetries - 1) {
                attempt++;
                const delay = ...; // exponential backoff with jitter
                await new Promise(resolve => setTimeout(resolve, delay));
            } else { throw error; }
        }
    }
    throw new Error("Max retries reached. This should not happen.");
}
```

The asynchronous operation is modelled as `call : Nat → Except String T`
giving the outcome of its n-th invocation (errors are their JS string
forms, as produced by `error.toString()`).  Backoff delays are not timed;
the trace records how many were performed. -/

/-- The string form of App.tsx line 93's rate-limit test:
`error.toString().includes('429') || error.toString().includes('RESOURCE_EXHAUSTED')`. -/
def isRateLimitError (e : String) : Bool :=
  includesStr e "429" || includesStr e "RESOURCE_EXHAUSTED"

/-- Observable outcome of a `withRetry` run: the returned value or thrown
error, how many times the operation was invoked, and how many backoff
delays were performed. -/
structure RetryTrace (T : Type) where
  result : Except String T
  calls : Nat
  sleeps : Nat

/-- The `while (attempt < maxRetries)` loop of `withRetry`.  `calls` counts
invocations made so far (indexing `call`), `sleeps` counts backoff delays.
JS computes `maxRetries - 1` in ℤ, but for `maxRetries = 0` both the JS
comparison `attempt < -1` and the ℕ comparison `attempt < 0` are false, so
truncated subtraction is faithful. -/
def withRetryLoop (call : Nat → Except String T) (maxRetries : Nat)
    (attempt calls sleeps : Nat) : RetryTrace T :=
  if attempt < maxRetries then
    match call calls with
    | .ok t => ⟨.ok t, calls + 1, sleeps⟩
    | .error e =>
      if isRateLimitError e && decide (attempt < maxRetries - 1) then
        withRetryLoop call maxRetries (attempt + 1) (calls + 1) (sleeps + 1)
      else
        ⟨.error e, calls + 1, sleeps⟩
  else
    ⟨.error "Max retries reached. This should not happen.", calls, sleeps⟩
  termination_by maxRetries - attempt

/-- `withRetry(apiCall, maxRetries)` from App.tsx line 87 (the
`initialDelay` argument only scales the untimed delays). -/
def withRetry (call : Nat → Except String T) (maxRetries : Nat) : RetryTrace T :=
  withRetryLoop call maxRetries 0 0 0

/-! ## JavaScript runtime values

The parsed API response (`JSON.parse` output) is an arbitrary JS value.
`JVal` models the JSON-reachable values plus `undefined`, which property
access on a value lacking the property produces.  JS numbers are modelled
as `Int`: every number in the claims (question ids, scores) is integral. -/

/-- A JavaScript value as seen by the response-validation code. -/
inductive JVal where
  | jnull
  | jundefined
  | jbool (b : Bool)
  | jnum (n : Int)
  | jstr (s : String)
  | jarr (elems : List JVal)
  | jobj (fields : List (String × JVal))

/-- JS truthiness of a value. -/
def truthy : JVal → Bool
  | .jnull => false
  | .jundefined => false
  | .jbool b => b
  | .jnum n => n != 0
  | .jstr s => !s.isEmpty
  | .jarr _ => true
  | .jobj _ => true

/-- JS property access `v[k]`.  On `null` and `undefined` it throws a
`TypeError` (modelled as `Except.error ()`); on an object it returns the
property's value or `undefined`; on any other value it returns
`undefined`. -/
def getField : JVal → String → Except Unit JVal
  | .jnull, _ => .error ()
  | .jundefined, _ => .error ()
  | .jobj fs, k => .ok (((fs.find? (fun p => p.1 == k)).map Prod.snd).getD .jundefined)
  | _, _ => .ok .jundefined

/-! ## Batched option fetch: response validation
(`generateBatchQuestionOptions`, App.tsx lines 353-391)

```js
const optionsMap = new Map();
for (const item of results) {
  if (item && typeof item.questionId === 'number' && Array.isArray(item.options)
      && item.options.every(opt => typeof opt.text === 'string'
                                && typeof opt.score === 'number')) {
    optionsMap.set(item.questionId, item.options);
  } else {
    console.warn("Invalid item structure in API response:", item);
  }
}
if (optionsMap.size !== questions.length) { console.warn(...); }
return optionsMap;
```

The surrounding `try`/`catch` turns a thrown `TypeError` into the
user-facing generation error, so a thrown validation (`Except.error ()`
here) means the whole fetch fails rather than the entry being dropped.
Note the map's contents do not depend on the requested batch: a partial
map only triggers the size warning, never an error. -/

/-- The per-option check
`typeof opt.text === 'string' && typeof opt.score === 'number'`
(left-to-right, short-circuited; property access may throw). -/
def validateOpt (opt : JVal) : Except Unit Bool :=
  match getField opt "text" with
  | .error e => .error e
  | .ok t =>
    match t with
    | .jstr _ =>
      match getField opt "score" with
      | .error e => .error e
      | .ok s =>
        match s with
        | .jnum _ => .ok true
        | _ => .ok false
    | _ => .ok false

/-- `item.options.every(opt => ...)`: short-circuits on the first failing
option; a thrown check aborts the whole loop. -/
def everyValidate : List JVal → Except Unit Bool
  | [] => .ok true
  | o :: rest =>
    match validateOpt o with
    | .error e => .error e
    | .ok true => everyValidate rest
    | .ok false => .ok false

/-- The whole per-item condition of App.tsx line 373:
`item && typeof item.questionId === 'number' && Array.isArray(item.options)
&& item.options.every(...)`. -/
def validateItem (item : JVal) : Except Unit Bool :=
  if truthy item then
    match getField item "questionId" with
    | .error e => .error e
    | .ok q =>
      match q with
      | .jnum _ =>
        match getField item "options" with
        | .error e => .error e
        | .ok o =>
          match o with
          | .jarr xs => everyValidate xs
          | _ => .ok false
      | _ => .ok false
  else .ok false

/-- JS `Map.prototype.set` on a map modelled as its insertion-ordered entry
list: an existing key keeps its position and gets the new value, a new key
is appended. -/
def mapSet [BEq κ] (m : List (κ × α)) (k : κ) (v : α) : List (κ × α) :=
  if m.any (fun p => p.1 == k) then
    m.map (fun p => if p.1 == k then (k, v) else p)
  else m ++ [(k, v)]

/-- JS `Map.prototype.get` as an `Option`. -/
def mapGet [BEq κ] (m : List (κ × α)) (k : κ) : Option α :=
  (m.find? (fun p => p.1 == k)).map Prod.snd

/-- The `for (const item of results)` loop building `optionsMap`,
threading the map being built. -/
def buildOptionsLoop : List JVal → List (Int × List JVal) →
    Except Unit (List (Int × List JVal))
  | [], acc => .ok acc
  | item :: rest, acc =>
    match validateItem item with
    | .error e => .error e
    | .ok true =>
      match getField item "questionId", getField item "options" with
      | .ok (.jnum n), .ok (.jarr xs) => buildOptionsLoop rest (mapSet acc n xs)
      | _, _ => buildOptionsLoop rest acc
    | .ok false => buildOptionsLoop rest acc

/-- The map `generateBatchQuestionOptions` builds from the parsed response
array, or the validation throw the surrounding `catch` converts into a
fetch failure. -/
def buildOptionsMap (results : List JVal) : Except Unit (List (Int × List JVal)) :=
  buildOptionsLoop results []

/-! ## Data model (types.ts) -/

/-- `Answer` from types.ts.  Scores are JS numbers, modelled as `Int`. -/
structure Answer where
  questionId : Nat
  score : Int
  optionText : String
  remark : String
  deriving DecidableEq

/-- `GeneratedOption` from types.ts. -/
structure GeneratedOption where
  text : String
  score : Int
  deriving DecidableEq

/-- `Question` from types.ts. -/
structure Question where
  id : Nat
  text : String
  categoryKey : String
  categoryTitle : String
  deriving DecidableEq

/-! ## The question list (questions.ts)

questions.ts enumerates the ids of each category explicitly; each
category's ids are consecutive, so they are transcribed as ranges:
A = 1-19, B = 20-38, C = 39-57, D = 58-76, E = 77-95, F = 96-109,
G = 110-123, H = 124-132, I = 133-140. -/

/-- The consecutive ids `a, a+1, ..., b`. -/
def idsFromTo (a b : Nat) : List Nat :=
  (List.range (b + 1 - a)).map (a + ·)

/-- `questionCategoriesStructure` from questions.ts: category key paired
with its question ids. -/
def questionCategoriesStructure : List (String × List Nat) :=
  [("A", idsFromTo 1 19), ("B", idsFromTo 20 38), ("C", idsFromTo 39 57),
   ("D", idsFromTo 58 76), ("E", idsFromTo 77 95), ("F", idsFromTo 96 109),
   ("G", idsFromTo 110 123), ("H", idsFromTo 124 132), ("I", idsFromTo 133 140)]

/-- `initialQuestions` from questions.ts: the structure hydrated with
empty text (filled in later by the i18n layer). -/
def initialQuestions : List Question :=
  questionCategoriesStructure.flatMap
    (fun c => c.2.map (fun i => ⟨i, "", c.1, ""⟩))

/-! ## The Fisher-Yates shuffle of `handleStartQuiz` (App.tsx lines 520-536)

```js
const array = [...initialQuestions];
for (let i = array.length - 1; i > 0; i--) {
    const j = Math.floor(Math.random() * (i + 1));
    [array[i], array[j]] = [array[j], array[i]];
}
```

`rand i` models the drawn index `Math.floor(Math.random() * (i + 1))`
(in reality always in `[0, i]`; the permutation result below holds for an
arbitrary `rand`). -/

/-- One destructuring swap `[array[i], array[j]] = [array[j], array[i]]`:
both elements are read before either is written.  The source only swaps
in-range indices; out-of-range reads leave the list unchanged. -/
def swapAt (l : List α) (i j : Nat) : List α :=
  match l.get? i, l.get? j with
  | some a, some b => (l.set i b).set j a
  | _, _ => l

/-- The loop `for (let i = length-1; i > 0; i--)`, with the loop counter
as the recursion argument: the step at `i+1` swaps indices `i+1` and
`rand (i+1)`. -/
def fyLoop (rand : Nat -> Nat) : Nat -> List α -> List α
  | 0, l => l
  | i + 1, l => fyLoop rand i (swapAt l (i + 1) (rand (i + 1)))

/-- The whole shuffle of `handleStartQuiz`. -/
def fisherYates (rand : Nat -> Nat) (l : List α) : List α :=
  fyLoop rand (l.length - 1) l

/-! ## App state and `handleStartQuiz` -/

/-- The `AppState` union type of App.tsx. -/
inductive AppStateT where
  | introduction
  | quiz
  | results
  deriving DecidableEq

/-- The React state of the `App` component that `handleStartQuiz`
touches, plus the presence of the persisted `quizProgress` record in
local storage.  Maps are their insertion-ordered entry lists. -/
structure AppModel where
  appState : AppStateT
  currentQuestionIndex : Nat
  answers : List (Nat × Answer)
  optionsCache : List (Nat × List GeneratedOption)
  shuffledQuestions : List Question
  worldviewImageHistory : List String
  quizProgressStored : Bool
  errorMsg : Option String
  viewingAnswers : Option (List (Nat × Answer))
  viewingWorldviewImage : Option String

/-- `handleStartQuiz` (App.tsx lines 520-536): remove the persisted
progress, shuffle a fresh copy of `initialQuestions`, and reset every
piece of quiz state. -/
def handleStartQuiz (rand : Nat -> Nat) (s : AppModel) : AppModel :=
  { s with
    quizProgressStored := false
    shuffledQuestions := fisherYates rand initialQuestions
    currentQuestionIndex := 0
    answers := []
    optionsCache := []
    errorMsg := none
    worldviewImageHistory := []
    viewingAnswers := none
    viewingWorldviewImage := none
    appState := .quiz }

/-! ## Share/load round trip
(`handleShare`, Results.tsx lines 236-244; shared-results URL effect,
App.tsx lines 231-256)

`handleShare` builds `dataToShare = {answers: Array.from(answers.entries()),
worldviewImageUrl: worldviewImageUrl || null}`, serializes it with
`JSON.stringify`, base64-encodes the resulting string with `btoa`, and
interpolates the raw base64 into the `?r=` URL parameter with no further
escaping.  The load effect reads the parameter back with
`new URLSearchParams(window.location.search).get('r')`, applies `atob`
and `JSON.parse` and, when `parsedData.answers` is an array, builds
`new Map(parsedData.answers)`.

Every step of that chain is modelled here:

* `encodeShare` is the `dataToShare` value before serialization, and
  `jsonStringify` is `JSON.stringify` on it (insertion-ordered keys, no
  whitespace, standard escapes, non-ASCII characters emitted verbatim);
* `btoa` is the real Web API: base64 of the code units, failing
  (`InvalidCharacterError`) when any code unit exceeds U+00FF — which
  happens for any non-Latin-1 `optionText`/`remark`, e.g. the app's
  default Russian texts;
* `formUrlDecode` is the `application/x-www-form-urlencoded` value
  decoding that `URLSearchParams.get` applies: `+` becomes a space (and
  `%XX` is decoded, though `%` never occurs in base64 output), so a `+`
  in the raw base64 is corrupted in transport;
* `atob` is the forgiving-base64 decode: ASCII whitespace stripped,
  trailing padding removed, remainder decoded.

The one step left as a declared codec identity is `JSON.parse`: the
amended round-trip theorem shows `atob` hands the load effect *exactly*
the string `JSON.stringify` produced, and `decodeShare` continues from
the parsed payload value — `jToEntry` recovering the typed entries
exactly as the `Map` constructor consumes the parsed `[key, value]`
pairs. -/

/-- An `Answer` as `JSON.stringify` serializes it. -/
def answerToJ (a : Answer) : JVal :=
  .jobj [("questionId", .jnum a.questionId), ("score", .jnum a.score),
         ("optionText", .jstr a.optionText), ("remark", .jstr a.remark)]

/-- A `Map` entry serializes as the two-element array `[key, value]`. -/
def entryToJ (p : Nat × Answer) : JVal :=
  .jarr [.jnum p.1, answerToJ p.2]

/-- The `dataToShare` JSON value of `handleShare`. -/
def encodeShare (m : List (Nat × Answer)) (url : Option String) : JVal :=
  .jobj [("answers", .jarr (m.map entryToJ)),
         ("worldviewImageUrl", match url with
           | some u => .jstr u
           | none => .jnull)]

/-- Property lookup on an object value, as a pure `Option` (the load
effect only reads fields of the parsed object). -/
def objField (v : JVal) (k : String) : Option JVal :=
  match v with
  | .jobj fs => (fs.find? (fun p => p.1 == k)).map Prod.snd
  | _ => none

/-- Recover a typed `Answer` from its serialized object. -/
def jToAnswer (v : JVal) : Option Answer :=
  match objField v "questionId", objField v "score",
      objField v "optionText", objField v "remark" with
  | some (.jnum q), some (.jnum sc), some (.jstr t), some (.jstr r) =>
    if q < 0 then none else some ⟨q.toNat, sc, t, r⟩
  | _, _, _, _ => none

/-- Recover a typed `Map` entry from its serialized `[key, value]` pair. -/
def jToEntry (v : JVal) : Option (Nat × Answer) :=
  match v with
  | .jarr [k, av] =>
    match k with
    | .jnum kn =>
      if kn < 0 then none else (jToAnswer av).map (fun a => (kn.toNat, a))
    | _ => none
  | _ => none

/-- `new Map(entries)`: insert the entries in order into an empty map. -/
def mapFromEntries (l : List (Nat × Answer)) : List (Nat × Answer) :=
  l.foldl (fun acc p => mapSet acc p.1 p.2) []

/-- Recover every typed entry of the serialized entry list, as the `Map`
constructor consumes the parsed `[key, value]` pairs in order. -/
def decodeEntries : List JVal → Option (List (Nat × Answer))
  | [] => some []
  | v :: rest =>
    match jToEntry v with
    | some p => (decodeEntries rest).map (fun tl => p :: tl)
    | none => none

/-- The shared-results load effect (App.tsx lines 231-256): read the
`answers` entry list, rebuild the map, and read the image URL. -/
def decodeShare (v : JVal) : Option (List (Nat × Answer) × Option String) :=
  match objField v "answers" with
  | some (.jarr es) =>
    match decodeEntries es with
    | some entries =>
      some (mapFromEntries entries,
        match objField v "worldviewImageUrl" with
        | some (.jstr u) => some u
        | _ => none)
    | none => none
  | _ => none


/-! ### `JSON.stringify` (the exact character stream fed to `btoa`) -/

/-- Lowercase hex digit, as `JSON.stringify` uses in escapes. -/
def hexDigitChar (n : Nat) : Char :=
  if n < 10 then Char.ofNat (48 + n) else Char.ofNat (87 + n)

/-- How `JSON.stringify` serializes one character of a string: `"` and
backslash escaped, the named control escapes, `\u00XX` for the other
control characters, everything else (including non-ASCII) verbatim. -/
def jsonEscapeChar (c : Char) : List Char :=
  if c = '"' then ['\\', '"']
  else if c = '\\' then ['\\', '\\']
  else if c.toNat = 8 then ['\\', 'b']
  else if c = '\t' then ['\\', 't']
  else if c = '\n' then ['\\', 'n']
  else if c.toNat = 12 then ['\\', 'f']
  else if c = '\r' then ['\\', 'r']
  else if c.toNat < 32 then
    ['\\', 'u', '0', '0', hexDigitChar (c.toNat / 16), hexDigitChar (c.toNat % 16)]
  else [c]

/-- A JSON string literal. -/
def jsonStringChars (s : String) : List Char :=
  '"' :: s.data.flatMap jsonEscapeChar ++ ['"']

/-- The object braces, named to keep brace characters out of literals. -/
def lbrace : Char := '\x7b'

def rbrace : Char := '\x7d'

mutual

/-- `JSON.stringify` of a value, as a character list: insertion-ordered
object keys, no whitespace (the defaults the code uses).  `undefined`
only ever occurs in array position in this model, where `JSON.stringify`
emits `null`. -/
def jsonStringifyChars : JVal → List Char
  | .jnull => ['n', 'u', 'l', 'l']
  | .jundefined => ['n', 'u', 'l', 'l']
  | .jbool b => if b then ['t', 'r', 'u', 'e'] else ['f', 'a', 'l', 's', 'e']
  | .jnum n => (toString n).data
  | .jstr s => jsonStringChars s
  | .jarr xs => '[' :: jsonArrChars xs ++ [']']
  | .jobj fs => lbrace :: jsonObjChars fs ++ [rbrace]

/-- Comma-separated array elements. -/
def jsonArrChars : List JVal → List Char
  | [] => []
  | [v] => jsonStringifyChars v
  | v :: rest => jsonStringifyChars v ++ ',' :: jsonArrChars rest

/-- Comma-separated `"key":value` object members. -/
def jsonObjChars : List (String × JVal) → List Char
  | [] => []
  | [(k, v)] => jsonStringChars k ++ ':' :: jsonStringifyChars v
  | (k, v) :: rest =>
    jsonStringChars k ++ ':' :: jsonStringifyChars v ++ ',' :: jsonObjChars rest

end

/-- `JSON.stringify` as a string-producing function. -/
def jsonStringify (v : JVal) : String :=
  ⟨jsonStringifyChars v⟩

/-! ### `btoa` and forgiving-base64 `atob` (Web APIs used by the share
path) -/

/-- The base64 alphabet character of a sextet. -/
def sextetChar (n : Nat) : Char :=
  if n < 26 then Char.ofNat (65 + n)
  else if n < 52 then Char.ofNat (97 + (n - 26))
  else if n < 62 then Char.ofNat (48 + (n - 52))
  else if n = 62 then '+'
  else '/'

/-- The sextet of a base64 alphabet character, `none` outside the
alphabet. -/
def charSextet (c : Char) : Option Nat :=
  if 65 ≤ c.toNat ∧ c.toNat ≤ 90 then some (c.toNat - 65)
  else if 97 ≤ c.toNat ∧ c.toNat ≤ 122 then some (c.toNat - 97 + 26)
  else if 48 ≤ c.toNat ∧ c.toNat ≤ 57 then some (c.toNat - 48 + 52)
  else if c = '+' then some 62
  else if c = '/' then some 63
  else none

/-- Base64-encode a byte list, three bytes to four characters, padding
the final partial group with `=`. -/
def b64encode : List Nat → List Char
  | [] => []
  | [b1] =>
    [sextetChar (b1 / 4), sextetChar (b1 % 4 * 16), '=', '=']
  | [b1, b2] =>
    [sextetChar (b1 / 4), sextetChar (b1 % 4 * 16 + b2 / 16),
     sextetChar (b2 % 16 * 4), '=']
  | b1 :: b2 :: b3 :: rest =>
    sextetChar (b1 / 4) :: sextetChar (b1 % 4 * 16 + b2 / 16) ::
      sextetChar (b2 % 16 * 4 + b3 / 64) :: sextetChar (b3 % 64) ::
      b64encode rest

/-- `window.btoa`: base64 of the string's code units; throws
`InvalidCharacterError` (modelled as `none`) when any code unit exceeds
U+00FF. -/
def btoa (s : String) : Option String :=
  if s.data.all (fun c => decide (c.toNat ≤ 255)) then
    some ⟨b64encode (s.data.map Char.toNat)⟩
  else none

/-- ASCII whitespace, which forgiving-base64 strips before decoding. -/
def asciiWhitespace (c : Char) : Bool :=
  c = '\t' ∨ c = '\n' ∨ c.toNat = 12 ∨ c = '\r' ∨ c = ' '

/-- Remove one or two trailing `=` characters (forgiving-base64 padding
removal; only structural patterns, so it reduces definitionally). -/
def stripPad : List Char → List Char
  | [] => []
  | [c] => if c = '=' then [] else [c]
  | [c, d] => if d = '=' then (if c = '=' then [] else [c]) else [c, d]
  | c :: rest => c :: stripPad rest

/-- Map every character to its sextet, failing on the first character
outside the alphabet. -/
def sextetsOf : List Char → Option (List Nat)
  | [] => some []
  | c :: rest =>
    match charSextet c with
    | some s => (sextetsOf rest).map (fun tl => s :: tl)
    | none => none

/-- Reassemble bytes from sextets: full groups of four give three bytes;
a trailing group of two or three gives one or two bytes with the excess
bits discarded (forgiving decode); a single leftover sextet is the
length-1-mod-4 error caught before this point. -/
def b64decodeGroups : List Nat → Option (List Nat)
  | [] => some []
  | [_] => none
  | [s1, s2] => some [s1 * 4 + s2 / 16]
  | [s1, s2, s3] => some [s1 * 4 + s2 / 16, s2 % 16 * 16 + s3 / 4]
  | s1 :: s2 :: s3 :: s4 :: rest =>
    (b64decodeGroups rest).map
      (fun tl => (s1 * 4 + s2 / 16) :: (s2 % 16 * 16 + s3 / 4) ::
        (s3 % 4 * 64 + s4) :: tl)

/-- Forgiving-base64 steps 1-2: strip ASCII whitespace, then remove the
trailing padding when the length is a multiple of four. -/
def stripData (l : List Char) : List Char :=
  if (l.filter (fun c => !asciiWhitespace c)).length % 4 = 0 then
    stripPad (l.filter (fun c => !asciiWhitespace c))
  else l.filter (fun c => !asciiWhitespace c)

/-- Forgiving-base64 decode of a character list to bytes: fail when the
stripped length is 1 mod 4 or a character falls outside the alphabet. -/
def atobChars (l : List Char) : Option (List Nat) :=
  if (stripData l).length % 4 = 1 then none
  else
    match sextetsOf (stripData l) with
    | some sx => b64decodeGroups sx
    | none => none

/-- `window.atob`: forgiving-base64 decode, the resulting bytes read
back as a string of code units. -/
def atob (s : String) : Option String :=
  (atobChars s.data).map (fun bytes => ⟨bytes.map Char.ofNat⟩)

/-! ### The `?r=` URL parameter transport -/

/-- Hex digit value, for percent-decoding. -/
def hexVal (c : Char) : Option Nat :=
  if 48 ≤ c.toNat ∧ c.toNat ≤ 57 then some (c.toNat - 48)
  else if 65 ≤ c.toNat ∧ c.toNat ≤ 70 then some (c.toNat - 55)
  else if 97 ≤ c.toNat ∧ c.toNat ≤ 102 then some (c.toNat - 87)
  else none

/-- The `application/x-www-form-urlencoded` value decoding that
`URLSearchParams.get('r')` applies to what `handleShare` interpolated
verbatim: `+` becomes a space and `%XX` is percent-decoded (byte-level;
`%` never occurs in base64 output, so only the `+` rule can fire on this
data).  Everything else passes through. -/
def formUrlDecode : List Char → List Char
  | [] => []
  | '+' :: rest => ' ' :: formUrlDecode rest
  | '%' :: h1 :: h2 :: rest =>
    match hexVal h1, hexVal h2 with
    | some a, some b => Char.ofNat (16 * a + b) :: formUrlDecode rest
    | _, _ => '%' :: formUrlDecode (h1 :: h2 :: rest)
  | c :: rest => c :: formUrlDecode rest

/-- `URLSearchParams` value decoding on a string. -/
def formUrlDecodeStr (s : String) : String :=
  ⟨formUrlDecode s.data⟩

/-- The `?r=` value `handleShare` produces:
`btoa(JSON.stringify(dataToShare))`, or `none` when `btoa` throws. -/
def shareParamValue (m : List (Nat × Answer)) (url : Option String) : Option String :=
  btoa (jsonStringify (encodeShare m url))

/-! ## Score computations (Results.tsx lines 83-112) -/

/-- `totalScore`: `answers.forEach(answer => score += answer.score)`. -/
def totalScore (m : List (Nat × Answer)) : Int :=
  m.foldl (fun acc p => acc + p.2.score) 0

/-- One category's `userCategoryScore`:
`categoryQuestions.forEach(q => { if (answers.has(q.id))
userCategoryScore += answers.get(q.id)!.score })`. -/
def categoryScore (m : List (Nat × Answer)) (ids : List Nat) : Int :=
  ids.foldl (fun acc i =>
    match mapGet m i with
    | some a => acc + a.score
    | none => acc) 0

/-! ## Saved results and the duplicate-save guard
(Results.tsx lines 140-159 and 217-234) -/

/-- `SavedResult` (App.tsx lines 17-21). -/
structure SavedResult where
  timestamp : Nat
  answers : List (Nat × Answer)
  worldviewImageUrl : Option String
  deriving DecidableEq

/-- The Results-component state the save path touches: the persisted
`quizSavedResults` list and the `isSaved` flag. -/
structure ResultsState where
  savedResults : List SavedResult
  isSaved : Bool
  deriving DecidableEq

/-- The `alreadySaved` effect check (Results.tsx lines 140-159):
`savedResults.some(res => JSON.stringify(res.answers) ===
currentAnswersString)`.  `JSON.stringify` is injective on these entry
lists (`entryToJ` is injective, see `entryToJ_inj`), so comparing the
serialized strings is comparing the entry lists. -/
def alreadySaved (saved : List SavedResult) (ans : List (Nat × Answer)) : Bool :=
  saved.any (fun res => res.answers == ans)

/-- The effect that synchronizes `isSaved` with storage whenever the
component mounts or `answers` changes. -/
def syncSavedFlag (ans : List (Nat × Answer)) (st : ResultsState) : ResultsState :=
  { st with isSaved := alreadySaved st.savedResults ans }

/-- `handleSaveResults` (Results.tsx lines 217-234): bail out when
`isSaved`, otherwise push a new `SavedResult` and set the flag. -/
def handleSaveResults (now : Nat) (ans : List (Nat × Answer))
    (url : Option String) (st : ResultsState) : ResultsState :=
  if st.isSaved then st
  else { savedResults := st.savedResults ++ [⟨now, ans, url⟩], isSaved := true }

/-! ## `QuestionCard.handleNext` (QuestionCard.tsx lines 92-112) -/

/-- The whitespace class `String.prototype.trim` strips (the characters
relevant to this code base: space, tab, line feed, carriage return,
vertical tab, form feed). -/
def jsWhitespace (c : Char) : Bool :=
  c == ' ' || c == '\t' || c == '\n' || c == '\r' ||
    c == '\x0b' || c == '\x0c'

/-- JS `String.prototype.trim`. -/
def jsTrim (s : String) : String :=
  ⟨((s.data.dropWhile jsWhitespace).reverse.dropWhile jsWhitespace).reverse⟩

/-- What one click of the Next button does: the answer submitted through
`onAnswer` (if any), whether `onNext` advanced the quiz, and whether the
select-an-option alert fired. -/
structure NextOutcome where
  submitted : Option Answer
  advanced : Bool
  alerted : Bool
  deriving DecidableEq

/-- `handleNext` (QuestionCard.tsx lines 92-112).  `customText` is the
localized `t('custom_answer_text', language)` string. -/
def handleNextQC (qid : Nat) (selectedOption : Option GeneratedOption)
    (remark : String) (customText : String) : NextOutcome :=
  match selectedOption with
  | some opt => ⟨some ⟨qid, opt.score, opt.text, remark⟩, true, false⟩
  | none =>
    if !(jsTrim remark).isEmpty then
      ⟨some ⟨qid, 0, customText, jsTrim remark⟩, true, false⟩
    else
      ⟨none, false, true⟩

/-! ## The live-session `submitAnswer` tool call
(App.tsx lines 756-775 and `handleCloseVoiceModal`, lines 649-655) -/

/-- A chat message role (types.ts `ChatMessage`). -/
inductive ChatRole where
  | user
  | model
  deriving DecidableEq

/-- `ChatMessage` from types.ts. -/
structure ChatMessage where
  role : ChatRole
  text : String
  deriving DecidableEq

/-- The App state the voice-session message handler touches, with the
audio/session teardown tracked as booleans. -/
structure VoiceState where
  answers : List (Nat × Answer)
  isVoiceModalOpen : Bool
  chatHistory : List ChatMessage
  isAiSpeaking : Bool
  sessionClosed : Bool
  audioReleased : Bool

/-- `handleCloseVoiceModal` (App.tsx lines 649-655): hide the modal,
close the live session, release the audio resources, clear the chat
history, stop the speaking indicator. -/
def handleCloseVoiceModal (s : VoiceState) : VoiceState :=
  { s with
    isVoiceModalOpen := false
    sessionClosed := true
    audioReleased := true
    chatHistory := []
    isAiSpeaking := false }

/-- JS array indexing `l[i]` with an integer index: `undefined` when out
of range. -/
def jsIndex (l : List α) (i : Int) : Option α :=
  if i < 0 then none else l.get? i.toNat

/-- The `submitAnswer` branch of the live-session `onmessage` handler
(App.tsx lines 756-775): `const option = currentOptions[selectedOptionIndex];
if (option) { handleAnswer({...}) } ... handleCloseVoiceModal()`.  The
answer is recorded through `handleAnswer` only when the index is valid;
the modal is closed either way (`speak(farewell)` touches none of these
fields). -/
def handleSubmitAnswerCall (s : VoiceState) (currentOptions : List GeneratedOption)
    (qid : Nat) (idx : Int) (comment : String) : VoiceState :=
  let s2 := match jsIndex currentOptions idx with
    | some opt =>
      { s with answers := mapSet s.answers qid ⟨qid, opt.score, opt.text, comment⟩ }
    | none => s
  handleCloseVoiceModal s2

end Quiz

namespace Quiz

/-- C1: an operation that fails twice with rate-limit-shaped errors and then
succeeds is returned successfully by `withRetry` with the default budget
`maxRetries = 3`, with the operation invoked exactly 3 times — which is the
configured maximum, so never more than it. -/
theorem withRetry_succeeds_after_two_rate_limit_failures {T : Type}
    (call : Nat → Except String T) (v : T) (e0 e1 : String)
    (h0 : call 0 = .error e0) (h0r : isRateLimitError e0 = true)
    (h1 : call 1 = .error e1) (h1r : isRateLimitError e1 = true)
    (h2 : call 2 = .ok v) :
    withRetry call 3 = ⟨.ok v, 3, 2⟩ ∧ (withRetry call 3).calls ≤ 3 := by
  have : withRetry call 3 = ⟨.ok v, 3, 2⟩ := by
    unfold withRetry
    rw [withRetryLoop, if_pos (by omega), h0]
    simp only [h0r, Bool.true_and]
    rw [if_pos (by decide)]
    rw [withRetryLoop, if_pos (by omega), h1]
    simp only [h1r, Bool.true_and]
    rw [if_pos (by decide)]
    rw [withRetryLoop, if_pos (by omega), h2]
  exact ⟨this, by rw [this]⟩

/-- Witness for C1 at a concrete operation. -/
theorem withRetry_succeeds_after_two_rate_limit_failures_witness :
    withRetry (fun n => if n = 0 then .error "HTTP 429" else
      if n = 1 then .error "RESOURCE_EXHAUSTED: quota" else .ok 7) 3
      = ⟨.ok 7, 3, 2⟩ ∧
    (withRetry (fun n => if n = 0 then .error "HTTP 429" else
      if n = 1 then .error "RESOURCE_EXHAUSTED: quota" else .ok (7 : Nat)) 3).calls ≤ 3 :=
  withRetry_succeeds_after_two_rate_limit_failures _ 7 "HTTP 429"
    "RESOURCE_EXHAUSTED: quota" rfl (by decide) rfl (by decide) rfl

/-- C2: an operation whose first invocation fails with an error that is not
rate-limit-shaped is re-raised immediately: exactly one invocation, no
retry, no backoff delay. -/
theorem withRetry_reraises_non_rate_limit_immediately {T : Type}
    (call : Nat → Except String T) (e : String)
    (h0 : call 0 = .error e) (hnr : isRateLimitError e = false) :
    withRetry call 3 = ⟨.error e, 1, 0⟩ := by
  unfold withRetry
  rw [withRetryLoop, if_pos (by omega), h0]
  simp [hnr]

/-- Witness for C2 at a concrete operation. -/
theorem withRetry_reraises_non_rate_limit_immediately_witness :
    withRetry (fun _ => (.error "permission denied" : Except String Nat)) 3
      = ⟨.error "permission denied", 1, 0⟩ :=
  withRetry_reraises_non_rate_limit_immediately _ "permission denied" rfl (by decide)

/-- C3 counterexample: with an operation that fails with a rate-limit error
on every invocation, `withRetry` with the default budget re-raises the
operation's own error, not the distinguished generic exhaustion error
"Max retries reached. This should not happen." (App.tsx line 105, which is
unreachable). -/
theorem withRetry_exhaustion_rethrows_own_error_cex :
    withRetry (fun _ => (.error "429" : Except String Nat)) 3
        = ⟨.error "429", 3, 2⟩ ∧
      ("429" : String) ≠ "Max retries reached. This should not happen." := by
  constructor
  · unfold withRetry
    rw [withRetryLoop, if_pos (by omega)]
    simp only [show isRateLimitError "429" = true from by decide, Bool.true_and]
    rw [if_pos (by decide)]
    rw [withRetryLoop, if_pos (by omega)]
    simp only [show isRateLimitError "429" = true from by decide, Bool.true_and]
    rw [if_pos (by decide)]
    rw [withRetryLoop, if_pos (by omega)]
    simp [show isRateLimitError "429" = true from by decide]
  · decide

/-- C3 amended: an operation that fails with rate-limit-shaped errors on
every invocation exhausts the retry budget after exactly `maxRetries = 3`
invocations, and `withRetry` then re-raises the operation's own last error
(the generic exhaustion error of App.tsx line 105 is dead code). -/
theorem withRetry_exhaustion_rethrows_last_error {T : Type}
    (call : Nat → Except String T) (e0 e1 e2 : String)
    (h0 : call 0 = .error e0) (h0r : isRateLimitError e0 = true)
    (h1 : call 1 = .error e1) (h1r : isRateLimitError e1 = true)
    (h2 : call 2 = .error e2) (h2r : isRateLimitError e2 = true) :
    withRetry call 3 = ⟨.error e2, 3, 2⟩ := by
  unfold withRetry
  rw [withRetryLoop, if_pos (by omega), h0]
  simp only [h0r, Bool.true_and]
  rw [if_pos (by decide)]
  rw [withRetryLoop, if_pos (by omega), h1]
  simp only [h1r, Bool.true_and]
  rw [if_pos (by decide)]
  rw [withRetryLoop, if_pos (by omega), h2]
  simp [h2r]

/-- Witness for the amended C3 at a concrete operation. -/
theorem withRetry_exhaustion_rethrows_last_error_witness :
    withRetry (fun n => (.error (if n = 2 then "last 429" else "429")
      : Except String Nat)) 3 = ⟨.error "last 429", 3, 2⟩ :=
  withRetry_exhaustion_rethrows_last_error _ "429" "429" "last 429"
    rfl (by decide) rfl (by decide) rfl (by decide)

/-! ### Helper lemmas about `mapSet` and the validation loop -/

theorem mem_mapSet [BEq κ] [LawfulBEq κ] {m : List (κ × α)} {k : κ} {v : α}
    {p : κ × α} (hp : p ∈ mapSet m k v) : p ∈ m ∨ p = (k, v) := by
  unfold mapSet at hp
  split at hp
  · rw [List.mem_map] at hp
    obtain ⟨q, hq, hfq⟩ := hp
    by_cases h : q.1 == k
    · right
      rw [if_pos h] at hfq
      exact hfq.symm
    · left
      rw [if_neg h] at hfq
      exact hfq ▸ hq
  · rcases List.mem_append.mp hp with h | h
    · exact Or.inl h
    · right
      simpa using h

theorem mapSet_self_mem [BEq κ] [LawfulBEq κ] (m : List (κ × α)) (k : κ) (v : α) :
    ∃ w, (k, w) ∈ mapSet m k v := by
  unfold mapSet
  split
  case isTrue h =>
    rw [List.any_eq_true] at h
    obtain ⟨q, hq, hk⟩ := h
    exact ⟨v, List.mem_map.mpr ⟨q, hq, by rw [if_pos hk]⟩⟩
  case isFalse h =>
    exact ⟨v, List.mem_append.mpr (Or.inr (by simp))⟩

theorem mapSet_key_preserved [BEq κ] [LawfulBEq κ] {m : List (κ × α)} {k' : κ}
    (k : κ) (v : α) (hw : ∃ w, (k', w) ∈ m) : ∃ w, (k', w) ∈ mapSet m k v := by
  obtain ⟨w, hw⟩ := hw
  unfold mapSet
  split
  · by_cases h : k' == k
    · have hk : k' = k := eq_of_beq h
      subst hk
      exact ⟨v, List.mem_map.mpr ⟨(k', w), hw, by simp⟩⟩
    · exact ⟨w, List.mem_map.mpr ⟨(k', w), hw, by simp [h]⟩⟩
  · exact ⟨w, List.mem_append.mpr (Or.inl hw)⟩

theorem validateOpt_ok_true {opt : JVal} (h : validateOpt opt = Except.ok true) :
    (∃ s, getField opt "text" = Except.ok (.jstr s)) ∧
      ∃ n, getField opt "score" = Except.ok (.jnum n) := by
  unfold validateOpt at h
  cases ht : getField opt "text" with
  | error e => rw [ht] at h; cases h
  | ok t =>
    rw [ht] at h
    cases t with
    | jstr s =>
      cases hs : getField opt "score" with
      | error e => rw [hs] at h; cases h
      | ok sv =>
        rw [hs] at h
        cases sv with
        | jnum n => exact ⟨⟨s, rfl⟩, ⟨n, rfl⟩⟩
        | jnull => simp at h
        | jundefined => simp at h
        | jbool b => simp at h
        | jstr s2 => simp at h
        | jarr es => simp at h
        | jobj fs => simp at h
    | jnull => simp at h
    | jundefined => simp at h
    | jbool b => simp at h
    | jnum n => simp at h
    | jarr es => simp at h
    | jobj fs => simp at h

theorem everyValidate_sound :
    ∀ (xs : List JVal), everyValidate xs = Except.ok true →
      ∀ opt ∈ xs, (∃ s, getField opt "text" = Except.ok (.jstr s)) ∧
        ∃ n, getField opt "score" = Except.ok (.jnum n) := by
  intro xs
  induction xs with
  | nil => intro _ opt hmem; cases hmem
  | cons o rest ih =>
    intro h opt hmem
    unfold everyValidate at h
    cases hv : validateOpt o with
    | error e => rw [hv] at h; cases h
    | ok b =>
      rw [hv] at h
      cases b with
      | false => simp at h
      | true =>
        rcases List.mem_cons.mp hmem with rfl | hmem2
        · exact validateOpt_ok_true hv
        · exact ih h opt hmem2

theorem validateItem_ok_shape {item : JVal} (h : validateItem item = Except.ok true) :
    ∃ n xs, getField item "questionId" = Except.ok (.jnum n) ∧
      getField item "options" = Except.ok (.jarr xs) ∧
      everyValidate xs = Except.ok true := by
  unfold validateItem at h
  by_cases ht : truthy item
  · rw [if_pos ht] at h
    cases hq : getField item "questionId" with
    | error e => rw [hq] at h; cases h
    | ok q =>
      rw [hq] at h
      cases q with
      | jnum n =>
        cases ho : getField item "options" with
        | error e => rw [ho] at h; cases h
        | ok o =>
          rw [ho] at h
          cases o with
          | jarr xs => exact ⟨n, xs, rfl, rfl, h⟩
          | jnull => simp at h
          | jundefined => simp at h
          | jbool b => simp at h
          | jnum m => simp at h
          | jstr s => simp at h
          | jobj fs => simp at h
      | jnull => simp at h
      | jundefined => simp at h
      | jbool b => simp at h
      | jstr s => simp at h
      | jarr es => simp at h
      | jobj fs => simp at h
  · rw [if_neg ht] at h
    simp at h

theorem buildOptionsLoop_cons_error {item : JVal} {rest : List JVal}
    {acc : List (Int × List JVal)} {e : Unit}
    (h : validateItem item = Except.error e) :
    buildOptionsLoop (item :: rest) acc = Except.error e := by
  conv_lhs => rw [buildOptionsLoop]
  rw [h]

theorem buildOptionsLoop_cons_false {item : JVal} {rest : List JVal}
    {acc : List (Int × List JVal)}
    (h : validateItem item = Except.ok false) :
    buildOptionsLoop (item :: rest) acc = buildOptionsLoop rest acc := by
  conv_lhs => rw [buildOptionsLoop]
  rw [h]

theorem buildOptionsLoop_cons_true {item : JVal} {rest : List JVal}
    {acc : List (Int × List JVal)} {n : Int} {xs : List JVal}
    (hval : validateItem item = Except.ok true)
    (hq : getField item "questionId" = Except.ok (.jnum n))
    (ho : getField item "options" = Except.ok (.jarr xs)) :
    buildOptionsLoop (item :: rest) acc = buildOptionsLoop rest (mapSet acc n xs) := by
  conv_lhs => rw [buildOptionsLoop]
  rw [hval, hq, ho]

theorem buildLoop_sound :
    ∀ (results : List JVal) (acc m : List (Int × List JVal)),
      buildOptionsLoop results acc = Except.ok m →
      ∀ p ∈ m, p ∈ acc ∨ ∃ item ∈ results, validateItem item = Except.ok true ∧
        getField item "questionId" = Except.ok (.jnum p.1) ∧
        getField item "options" = Except.ok (.jarr p.2) := by
  intro results
  induction results with
  | nil =>
    intro acc m h p hp
    unfold buildOptionsLoop at h
    cases h
    exact Or.inl hp
  | cons item rest ih =>
    intro acc m h p hp
    cases hv : validateItem item with
    | error e => rw [buildOptionsLoop_cons_error hv] at h; cases h
    | ok b =>
      cases b with
      | false =>
        rw [buildOptionsLoop_cons_false hv] at h
        rcases ih acc m h p hp with hin | ⟨it, hit, hprops⟩
        · exact Or.inl hin
        · exact Or.inr ⟨it, List.mem_cons_of_mem _ hit, hprops⟩
      | true =>
        obtain ⟨n, xs, hq, ho, _⟩ := validateItem_ok_shape hv
        rw [buildOptionsLoop_cons_true hv hq ho] at h
        rcases ih (mapSet acc n xs) m h p hp with hin | ⟨it, hit, hprops⟩
        · rcases mem_mapSet hin with hin2 | heq
          · exact Or.inl hin2
          · subst heq
            exact Or.inr ⟨item, List.mem_cons_self _ _, hv, hq, ho⟩
        · exact Or.inr ⟨it, List.mem_cons_of_mem _ hit, hprops⟩

theorem buildLoop_complete :
    ∀ (results : List JVal) (acc m : List (Int × List JVal)),
      buildOptionsLoop results acc = Except.ok m →
      (∀ k, (∃ w, (k, w) ∈ acc) → ∃ w, (k, w) ∈ m) ∧
      (∀ item ∈ results, validateItem item = Except.ok true →
        ∀ k, getField item "questionId" = Except.ok (.jnum k) → ∃ w, (k, w) ∈ m) := by
  intro results
  induction results with
  | nil =>
    intro acc m h
    unfold buildOptionsLoop at h
    cases h
    exact ⟨fun _ hk => hk, fun it hit => absurd hit (List.not_mem_nil it)⟩
  | cons item rest ih =>
    intro acc m h
    cases hv : validateItem item with
    | error e => rw [buildOptionsLoop_cons_error hv] at h; cases h
    | ok b =>
      cases b with
      | false =>
        rw [buildOptionsLoop_cons_false hv] at h
        obtain ⟨P1, P2⟩ := ih acc m h
        refine ⟨P1, ?_⟩
        intro it hit hval k hk
        rcases List.mem_cons.mp hit with rfl | hit2
        · rw [hv] at hval
          simp at hval
        · exact P2 it hit2 hval k hk
      | true =>
        obtain ⟨n, xs, hq, ho, _⟩ := validateItem_ok_shape hv
        rw [buildOptionsLoop_cons_true hv hq ho] at h
        obtain ⟨P1, P2⟩ := ih (mapSet acc n xs) m h
        constructor
        · intro k hk
          exact P1 k (mapSet_key_preserved n xs hk)
        · intro it hit hval k hk
          rcases List.mem_cons.mp hit with rfl | hit2
          · rw [hq] at hk
            have hkn : k = n := by
              injection hk with hk2
              injection hk2 with hk3
              exact hk3.symm
            subst hkn
            exact P1 k (mapSet_self_mem acc k xs)
          · exact P2 it hit2 hval k hk

theorem buildLoop_total :
    ∀ (results : List JVal),
      (∀ item ∈ results, validateItem item ≠ Except.error ()) →
      ∀ acc, ∃ m, buildOptionsLoop results acc = Except.ok m := by
  intro results
  induction results with
  | nil => intro _ acc; exact ⟨acc, rfl⟩
  | cons item rest ih =>
    intro h acc
    have htail : ∀ it ∈ rest, validateItem it ≠ Except.error () :=
      fun it hit => h it (List.mem_cons_of_mem _ hit)
    cases hv : validateItem item with
    | error e =>
      cases e
      exact absurd hv (h item (List.mem_cons_self _ _))
    | ok b =>
      cases b with
      | false =>
        obtain ⟨m, hm⟩ := ih htail acc
        exact ⟨m, by rw [buildOptionsLoop_cons_false hv]; exact hm⟩
      | true =>
        obtain ⟨n, xs, hq, ho, _⟩ := validateItem_ok_shape hv
        obtain ⟨m, hm⟩ := ih htail (mapSet acc n xs)
        exact ⟨m, by rw [buildOptionsLoop_cons_true hv hq ho]; exact hm⟩

/-! ### C4: the batch fetch returns exactly the validated entries -/

/-- C4 counterexample: a response entry whose `options` array contains a
`null` element is not dropped with a warning — the access `opt.text`
throws, so the whole fetch raises an error instead of returning a map
without that entry. -/
theorem buildOptionsMap_null_option_throws_cex :
    buildOptionsMap [JVal.jobj [("questionId", JVal.jnum 1),
      ("options", JVal.jarr [JVal.jnull])]] = Except.error () := rfl

/-- C4 amended: provided no response entry makes the per-item validation
throw (in particular, no entry's `options` array contains a `null` or
`undefined` element), the fetch succeeds and returns a map containing
exactly the response entries whose `questionId` is a number and whose
`options` is an array of values each with a string `text` and a numeric
`score`; entries failing this validation are dropped with a console
warning, and a map missing some requested ids is still returned (the size
mismatch only logs a warning). -/
theorem buildOptionsMap_exactly_validated (results : List JVal)
    (h : ∀ item ∈ results, validateItem item ≠ Except.error ()) :
    ∃ m, buildOptionsMap results = Except.ok m ∧
      (∀ p ∈ m, ∃ item ∈ results, validateItem item = Except.ok true ∧
        getField item "questionId" = Except.ok (.jnum p.1) ∧
        getField item "options" = Except.ok (.jarr p.2)) ∧
      (∀ item ∈ results, validateItem item = Except.ok true →
        ∀ k, getField item "questionId" = Except.ok (.jnum k) →
          ∃ w, (k, w) ∈ m) := by
  obtain ⟨m, hm⟩ := buildLoop_total results h []
  refine ⟨m, hm, ?_, ?_⟩
  · intro p hp
    rcases buildLoop_sound results [] m hm p hp with hin | hgood
    · exact absurd hin (List.not_mem_nil p)
    · exact hgood
  · exact (buildLoop_complete results [] m hm).2

/-- Witness for the amended C4 on a concrete response: one valid entry and
one invalid (falsy) entry. -/
theorem buildOptionsMap_exactly_validated_witness :
    ∃ m, buildOptionsMap [JVal.jobj [("questionId", JVal.jnum 3),
        ("options", JVal.jarr [JVal.jobj [("text", JVal.jstr "a"),
          ("score", JVal.jnum 2)]])], JVal.jnull] = Except.ok m ∧
      (∀ p ∈ m, ∃ item ∈ [JVal.jobj [("questionId", JVal.jnum 3),
          ("options", JVal.jarr [JVal.jobj [("text", JVal.jstr "a"),
            ("score", JVal.jnum 2)]])], JVal.jnull],
        validateItem item = Except.ok true ∧
        getField item "questionId" = Except.ok (.jnum p.1) ∧
        getField item "options" = Except.ok (.jarr p.2)) ∧
      (∀ item ∈ [JVal.jobj [("questionId", JVal.jnum 3),
          ("options", JVal.jarr [JVal.jobj [("text", JVal.jstr "a"),
            ("score", JVal.jnum 2)]])], JVal.jnull],
        validateItem item = Except.ok true →
        ∀ k, getField item "questionId" = Except.ok (.jnum k) →
          ∃ w, (k, w) ∈ m) :=
  buildOptionsMap_exactly_validated _ (by
    intro item hit
    rcases List.mem_cons.mp hit with rfl | hit2
    · intro hc
      rw [show validateItem (JVal.jobj [("questionId", JVal.jnum 3),
        ("options", JVal.jarr [JVal.jobj [("text", JVal.jstr "a"),
          ("score", JVal.jnum 2)]])]) = Except.ok true from rfl] at hc
      cases hc
    · rw [List.mem_singleton] at hit2
      subst hit2
      intro hc
      rw [show validateItem JVal.jnull = Except.ok false from rfl] at hc
      cases hc)

/-! ### C8: scores of merged options -/

/-- C8 counterexample: the validation checks only that `score` is a
number, so a response option with score 42 is accepted and merged into the
cache, violating the 0-5 range. -/
theorem buildOptionsMap_accepts_out_of_range_score_cex :
    buildOptionsMap [JVal.jobj [("questionId", JVal.jnum 1),
        ("options", JVal.jarr [JVal.jobj [("text", JVal.jstr "x"),
          ("score", JVal.jnum 42)]])]]
      = Except.ok [(1, [JVal.jobj [("text", JVal.jstr "x"),
          ("score", JVal.jnum 42)]])] ∧
    ¬((0 : Int) ≤ 42 ∧ (42 : Int) ≤ 5) := by
  constructor
  · rfl
  · decide

/-- C8 amended: every option a batch fetch merges into the cache has a
string `text` and a numeric `score` — the 0-5 range is requested from the
API in the prompt and schema description but not enforced by the
validation, so accepted scores may fall outside it. -/
theorem buildOptionsMap_merged_scores_numeric (results m)
    (h : buildOptionsMap results = Except.ok m) :
    ∀ p ∈ m, ∀ opt ∈ p.2, (∃ s, getField opt "text" = Except.ok (.jstr s)) ∧
      ∃ n, getField opt "score" = Except.ok (.jnum n) := by
  intro p hp opt hopt
  rcases buildLoop_sound results [] m h p hp with hin | ⟨item, _, hval, _, ho⟩
  · exact absurd hin (List.not_mem_nil p)
  · obtain ⟨n, xs, hq2, ho2, hev⟩ := validateItem_ok_shape hval
    rw [ho] at ho2
    have hxs : p.2 = xs := by simpa using ho2
    rw [hxs] at hopt
    exact everyValidate_sound xs hev opt hopt

/-- Witness for the amended C8 at the concrete score-42 response. -/
theorem buildOptionsMap_merged_scores_numeric_witness :
    (∃ s, getField (JVal.jobj [("text", JVal.jstr "x"),
      ("score", JVal.jnum 42)]) "text" = Except.ok (.jstr s)) ∧
    ∃ n, getField (JVal.jobj [("text", JVal.jstr "x"),
      ("score", JVal.jnum 42)]) "score" = Except.ok (.jnum n) :=
  buildOptionsMap_merged_scores_numeric
    [JVal.jobj [("questionId", JVal.jnum 1),
      ("options", JVal.jarr [JVal.jobj [("text", JVal.jstr "x"),
        ("score", JVal.jnum 42)]])]]
    [(1, [JVal.jobj [("text", JVal.jstr "x"), ("score", JVal.jnum 42)]])]
    rfl
    (1, [JVal.jobj [("text", JVal.jstr "x"), ("score", JVal.jnum 42)]])
    (List.mem_singleton.mpr rfl)
    (JVal.jobj [("text", JVal.jstr "x"), ("score", JVal.jnum 42)])
    (List.mem_singleton.mpr rfl)

/-! ### C5: restart resets everything and shuffles a permutation -/

theorem perm_cons_set {α : Type u} :
    ∀ (k : Nat) (t : List α) (b x : α), t.get? k = some b →
      List.Perm (b :: t.set k x) (x :: t) := by
  intro k
  induction k with
  | zero =>
    intro t b x h
    cases t with
    | nil => cases h
    | cons y t2 =>
      simp only [List.get?_cons_zero, Option.some.injEq] at h
      subst h
      simp only [List.set]
      exact List.Perm.swap x y t2
  | succ k ih =>
    intro t b x h
    cases t with
    | nil => cases h
    | cons y t2 =>
      simp only [List.get?_cons_succ] at h
      simp only [List.set]
      exact ((List.Perm.swap y b (t2.set k x)).trans
        ((ih t2 b x h).cons y)).trans (List.Perm.swap x y t2)

theorem set_set_swap_perm {α : Type u} :
    ∀ (l : List α) (i j : Nat) (a b : α),
      l.get? i = some a → l.get? j = some b →
      List.Perm ((l.set i b).set j a) l := by
  intro l
  induction l with
  | nil => intro i j a b h _; cases h
  | cons x t ih =>
    intro i j a b hi hj
    cases i with
    | zero =>
      simp only [List.get?_cons_zero, Option.some.injEq] at hi
      subst hi
      cases j with
      | zero =>
        simp only [List.get?_cons_zero, Option.some.injEq] at hj
        subst hj
        simp only [List.set]
        exact List.Perm.refl _
      | succ m =>
        simp only [List.get?_cons_succ] at hj
        simp only [List.set]
        exact perm_cons_set m t b x hj
    | succ n =>
      simp only [List.get?_cons_succ] at hi
      cases j with
      | zero =>
        simp only [List.get?_cons_zero, Option.some.injEq] at hj
        subst hj
        simp only [List.set]
        exact perm_cons_set n t a x hi
      | succ m =>
        simp only [List.get?_cons_succ] at hj
        simp only [List.set]
        exact (ih n m a b hi hj).cons x

theorem swapAt_perm {α : Type u} (l : List α) (i j : Nat) :
    List.Perm (swapAt l i j) l := by
  unfold swapAt
  split
  next a b hi hj => exact set_set_swap_perm l i j a b hi hj
  next => exact List.Perm.refl l

theorem fyLoop_perm {α : Type u} (rand : Nat → Nat) :
    ∀ (n : Nat) (l : List α), List.Perm (fyLoop rand n l) l := by
  intro n
  induction n with
  | zero => intro l; exact List.Perm.refl l
  | succ i ih =>
    intro l
    exact (ih _).trans (swapAt_perm l (i + 1) (rand (i + 1)))

theorem fisherYates_perm {α : Type u} (rand : Nat → Nat) (l : List α) :
    List.Perm (fisherYates rand l) l :=
  fyLoop_perm rand (l.length - 1) l

set_option maxRecDepth 4000 in
theorem initialQuestions_length : initialQuestions.length = 140 := by decide

set_option maxRecDepth 4000 in
/-- C5: after `handleStartQuiz` runs, regardless of the prior state, the
answers map is empty, the options cache is empty, the worldview image
history is empty, the persisted quiz-progress record is removed, the
current question index is 0, and `shuffledQuestions` is a permutation of
the initial 140-question list. -/
theorem handleStartQuiz_resets (rand : Nat → Nat) (s : AppModel) :
    (handleStartQuiz rand s).answers = [] ∧
    (handleStartQuiz rand s).optionsCache = [] ∧
    (handleStartQuiz rand s).worldviewImageHistory = [] ∧
    (handleStartQuiz rand s).quizProgressStored = false ∧
    (handleStartQuiz rand s).currentQuestionIndex = 0 ∧
    List.Perm (handleStartQuiz rand s).shuffledQuestions initialQuestions ∧
    initialQuestions.length = 140 := by
  refine ⟨rfl, rfl, rfl, rfl, rfl, ?_, initialQuestions_length⟩
  have hfield : (handleStartQuiz rand s).shuffledQuestions
      = fisherYates rand initialQuestions := by
    simp only [handleStartQuiz]
  rw [hfield]
  exact fisherYates_perm rand initialQuestions

/-! ### C6: share/load round trip preserves the answers and the scores -/

theorem entryToJ_inj {p q : Nat × Answer} (h : entryToJ p = entryToJ q) : p = q := by
  rcases p with ⟨k1, a1⟩
  rcases q with ⟨k2, a2⟩
  cases a1
  cases a2
  simp only [entryToJ, answerToJ, JVal.jarr.injEq, List.cons.injEq, JVal.jnum.injEq,
    JVal.jobj.injEq, Prod.mk.injEq, JVal.jstr.injEq, and_true, Int.natCast_inj] at h
  simp_all

theorem jToEntry_entryToJ (p : Nat × Answer) : jToEntry (entryToJ p) = some p := by
  rcases p with ⟨k, a⟩
  have hlt : ¬((k : Int) < 0) := Int.not_lt.mpr (Int.natCast_nonneg k)
  simp [entryToJ, jToEntry, jToAnswer, answerToJ, objField, List.find?, hlt]

theorem decodeEntries_map : ∀ (m : List (Nat × Answer)),
    decodeEntries (m.map entryToJ) = some m := by
  intro m
  induction m with
  | nil => rfl
  | cons p tl ih => simp [decodeEntries, jToEntry_entryToJ, ih]

theorem mapSet_eq_append {m : List (Nat × Answer)} {k : Nat} {v : Answer}
    (h : ∀ q ∈ m, q.1 ≠ k) : mapSet m k v = m ++ [(k, v)] := by
  unfold mapSet
  rw [if_neg]
  intro hc
  rw [List.any_eq_true] at hc
  obtain ⟨q, hq, hbeq⟩ := hc
  exact h q hq (by simpa using hbeq)

theorem foldl_mapSet_eq_append :
    ∀ (l acc : List (Nat × Answer)),
      (∀ k ∈ l.map Prod.fst, ∀ q ∈ acc, q.1 ≠ k) →
      (l.map Prod.fst).Nodup →
      l.foldl (fun acc2 p => mapSet acc2 p.1 p.2) acc = acc ++ l := by
  intro l
  induction l with
  | nil => intro acc _ _; simp
  | cons p tl ih =>
    intro acc hdisj hnodup
    rcases p with ⟨k, v⟩
    simp only [List.foldl_cons]
    have hke : mapSet acc k v = acc ++ [(k, v)] :=
      mapSet_eq_append (fun q hq => hdisj k (by simp) q hq)
    rw [hke]
    simp only [List.map_cons, List.nodup_cons] at hnodup
    have hdisj2 : ∀ k2 ∈ tl.map Prod.fst, ∀ q ∈ acc ++ [(k, v)], q.1 ≠ k2 := by
      intro k2 hk2 q hq
      rcases List.mem_append.mp hq with hq1 | hq2
      · exact hdisj k2 (by simp [hk2]) q hq1
      · have hq3 : q = (k, v) := by simpa using hq2
        subst hq3
        intro hcontra
        have hk : k = k2 := hcontra
        exact hnodup.1 (by rw [hk]; exact hk2)
    rw [ih (acc ++ [(k, v)]) hdisj2 hnodup.2]
    simp

theorem mapFromEntries_self {l : List (Nat × Answer)}
    (h : (l.map Prod.fst).Nodup) : mapFromEntries l = l := by
  unfold mapFromEntries
  have := foldl_mapSet_eq_append l []
    (fun k _ q hq => absurd hq (List.not_mem_nil q)) h
  simpa using this

theorem decodeShare_encodeShare (m : List (Nat × Answer)) (url : Option String)
    (h : (m.map Prod.fst).Nodup) :
    decodeShare (encodeShare m url) = some (m, url) := by
  cases url with
  | none =>
    simp [decodeShare, encodeShare, objField, decodeEntries_map, mapFromEntries_self h]
  | some u =>
    simp [decodeShare, encodeShare, objField, decodeEntries_map, mapFromEntries_self h]

/-! ### The base64 codec and the URL transport -/

theorem charSextet_sextetChar : ∀ n < 64, charSextet (sextetChar n) = some n := by
  decide

theorem sextetChar_not_special : ∀ n < 64,
    sextetChar n ≠ '=' ∧ sextetChar n ≠ '%' ∧ asciiWhitespace (sextetChar n) = false := by
  decide

theorem b64encode_mem :
    ∀ (bytes : List Nat), (∀ b ∈ bytes, b < 256) →
      ∀ c ∈ b64encode bytes, c = '=' ∨ ∃ n, n < 64 ∧ c = sextetChar n := by
  intro bytes
  induction bytes using b64encode.induct with
  | case1 => intro _ c hc; cases hc
  | case2 b1 =>
    intro hb c hc
    have h1 : b1 < 256 := hb b1 (by simp)
    simp only [b64encode, List.mem_cons, List.not_mem_nil, or_false] at hc
    rcases hc with rfl | rfl | rfl | rfl
    · exact Or.inr ⟨b1 / 4, by omega, rfl⟩
    · exact Or.inr ⟨b1 % 4 * 16, by omega, rfl⟩
    · exact Or.inl rfl
    · exact Or.inl rfl
  | case3 b1 b2 =>
    intro hb c hc
    have h1 : b1 < 256 := hb b1 (by simp)
    have h2 : b2 < 256 := hb b2 (by simp)
    simp only [b64encode, List.mem_cons, List.not_mem_nil, or_false] at hc
    rcases hc with rfl | rfl | rfl | rfl
    · exact Or.inr ⟨b1 / 4, by omega, rfl⟩
    · exact Or.inr ⟨b1 % 4 * 16 + b2 / 16, by omega, rfl⟩
    · exact Or.inr ⟨b2 % 16 * 4, by omega, rfl⟩
    · exact Or.inl rfl
  | case4 b1 b2 b3 rest ih =>
    intro hb c hc
    have h1 : b1 < 256 := hb b1 (by simp)
    have h2 : b2 < 256 := hb b2 (by simp)
    have h3 : b3 < 256 := hb b3 (by simp)
    have hbrest : ∀ b ∈ rest, b < 256 := fun b hbm => hb b (by simp [hbm])
    simp only [b64encode, List.mem_cons] at hc
    rcases hc with rfl | rfl | rfl | rfl | hc
    · exact Or.inr ⟨b1 / 4, by omega, rfl⟩
    · exact Or.inr ⟨b1 % 4 * 16 + b2 / 16, by omega, rfl⟩
    · exact Or.inr ⟨b2 % 16 * 4 + b3 / 64, by omega, rfl⟩
    · exact Or.inr ⟨b3 % 64, by omega, rfl⟩
    · exact ih hbrest c hc

theorem b64encode_plain {bytes : List Nat} (hb : ∀ b ∈ bytes, b < 256) :
    ∀ c ∈ b64encode bytes, c ≠ '%' ∧ asciiWhitespace c = false := by
  intro c hc
  rcases b64encode_mem bytes hb c hc with rfl | ⟨n, hn, rfl⟩
  · exact ⟨by decide, by decide⟩
  · exact ⟨(sextetChar_not_special n hn).2.1, (sextetChar_not_special n hn).2.2⟩

theorem b64encode_len_mod : ∀ (bytes : List Nat), (b64encode bytes).length % 4 = 0 := by
  intro bytes
  induction bytes using b64encode.induct with
  | case1 => rfl
  | case2 b1 => simp [b64encode]
  | case3 b1 b2 => simp [b64encode]
  | case4 b1 b2 b3 rest ih => simp only [b64encode, List.length_cons]; omega

theorem stripPad_cons_of_len (a : Char) (t : List Char) (h : 2 ≤ t.length) :
    stripPad (a :: t) = a :: stripPad t := by
  cases t with
  | nil => simp at h
  | cons x t1 =>
    cases t1 with
    | nil => simp at h
    | cons y t2 => rfl

theorem stripPad_append (A : List Char) (x y : Char) (E' : List Char) :
    stripPad (A ++ x :: y :: E') = A ++ stripPad (x :: y :: E') := by
  induction A with
  | nil => rfl
  | cons a A' ih =>
    rw [List.cons_append,
      stripPad_cons_of_len a _ (by simp only [List.length_append, List.length_cons]; omega),
      ih, List.cons_append]

theorem stripPad_eq_self : ∀ (l : List Char), (∀ c ∈ l, c ≠ '=') → stripPad l = l
  | [], _ => rfl
  | [c], h => by
    have hc : c ≠ '=' := h c (by simp)
    show (if c = '=' then [] else [c]) = [c]
    rw [if_neg hc]
  | [c, d], h => by
    have hd : d ≠ '=' := h d (by simp)
    show (if d = '=' then (if c = '=' then [] else [c]) else [c, d]) = [c, d]
    rw [if_neg hd]
  | c :: x :: y :: t, h => by
    rw [stripPad_cons_of_len c _ (by simp),
      stripPad_eq_self (x :: y :: t) (fun e he => h e (List.mem_cons_of_mem c he))]

theorem sextetsOf_cons {c : Char} {s : Nat} (h : charSextet c = some s) (l : List Char) :
    sextetsOf (c :: l) = (sextetsOf l).map (fun tl => s :: tl) := by
  conv_lhs => rw [sextetsOf]
  rw [h]

theorem sextetsOf_cons_none {c : Char} (h : charSextet c = none) (l : List Char) :
    sextetsOf (c :: l) = none := by
  conv_lhs => rw [sextetsOf]
  rw [h]

theorem sextetsOf_append :
    ∀ (A B : List Char) (sa : List Nat), sextetsOf A = some sa →
      sextetsOf (A ++ B) = (sextetsOf B).map (fun tl => sa ++ tl) := by
  intro A
  induction A with
  | nil =>
    intro B sa h
    cases h
    simp
  | cons c A' ih =>
    intro B sa h
    cases hc : charSextet c with
    | none => rw [sextetsOf_cons_none hc] at h; cases h
    | some sc =>
      rw [sextetsOf_cons hc] at h
      rcases Option.map_eq_some'.mp h with ⟨sa', hsa', rfl⟩
      rw [List.cons_append, sextetsOf_cons hc, ih B sa' hsa', Option.map_map]
      rfl

theorem b64core :
    ∀ (bytes : List Nat), (∀ b ∈ bytes, b < 256) →
      ∃ sx, sextetsOf (stripPad (b64encode bytes)) = some sx ∧
        b64decodeGroups sx = some bytes ∧
        (stripPad (b64encode bytes)).length % 4 ≠ 1 := by
  intro bytes
  induction bytes using b64encode.induct with
  | case1 => intro _; exact ⟨[], rfl, rfl, by decide⟩
  | case2 b1 =>
    intro hb
    have h1 : b1 < 256 := hb b1 (by simp)
    have hstrip : stripPad (b64encode [b1]) =
        [sextetChar (b1 / 4), sextetChar (b1 % 4 * 16)] := rfl
    refine ⟨[b1 / 4, b1 % 4 * 16], ?_, ?_, ?_⟩
    · rw [hstrip, sextetsOf_cons (charSextet_sextetChar _ (by omega)),
        sextetsOf_cons (charSextet_sextetChar _ (by omega))]
      rfl
    · show some [b1 / 4 * 4 + b1 % 4 * 16 / 16] = some [b1]
      simp only [Option.some.injEq, List.cons.injEq, and_true]
      omega
    · rw [hstrip]
      simp only [List.length_cons, List.length_nil]
      omega
  | case3 b1 b2 =>
    intro hb
    have h1 : b1 < 256 := hb b1 (by simp)
    have h2 : b2 < 256 := hb b2 (by simp)
    have hc3 : sextetChar (b2 % 16 * 4) ≠ '=' :=
      (sextetChar_not_special _ (by omega)).1
    have hstrip : stripPad (b64encode [b1, b2]) =
        [sextetChar (b1 / 4), sextetChar (b1 % 4 * 16 + b2 / 16),
         sextetChar (b2 % 16 * 4)] := by
      show stripPad [sextetChar (b1 / 4), sextetChar (b1 % 4 * 16 + b2 / 16),
        sextetChar (b2 % 16 * 4), '='] = _
      rw [stripPad_cons_of_len _ _ (by simp), stripPad_cons_of_len _ _ (by simp)]
      show _ :: _ :: (if ('=' : Char) = '=' then
        (if sextetChar (b2 % 16 * 4) = '=' then [] else [sextetChar (b2 % 16 * 4)])
        else _) = _
      rw [if_pos rfl, if_neg hc3]
    refine ⟨[b1 / 4, b1 % 4 * 16 + b2 / 16, b2 % 16 * 4], ?_, ?_, ?_⟩
    · rw [hstrip, sextetsOf_cons (charSextet_sextetChar _ (by omega)),
        sextetsOf_cons (charSextet_sextetChar _ (by omega)),
        sextetsOf_cons (charSextet_sextetChar _ (by omega))]
      rfl
    · show some [b1 / 4 * 4 + (b1 % 4 * 16 + b2 / 16) / 16,
        (b1 % 4 * 16 + b2 / 16) % 16 * 16 + b2 % 16 * 4 / 4] = some [b1, b2]
      simp only [Option.some.injEq, List.cons.injEq, and_true]
      constructor
      · omega
      · omega
    · rw [hstrip]
      simp only [List.length_cons, List.length_nil]
      omega
  | case4 b1 b2 b3 rest ih =>
    intro hb
    have h1 : b1 < 256 := hb b1 (by simp)
    have h2 : b2 < 256 := hb b2 (by simp)
    have h3 : b3 < 256 := hb b3 (by simp)
    have hbrest : ∀ b ∈ rest, b < 256 := fun b hbm => hb b (by simp [hbm])
    have hs1 := charSextet_sextetChar (b1 / 4) (by omega)
    have hs2 := charSextet_sextetChar (b1 % 4 * 16 + b2 / 16) (by omega)
    have hs3 := charSextet_sextetChar (b2 % 16 * 4 + b3 / 64) (by omega)
    have hs4 := charSextet_sextetChar (b3 % 64) (by omega)
    by_cases hrest : rest = []
    · subst hrest
      have hc4 : sextetChar (b3 % 64) ≠ '=' :=
        (sextetChar_not_special _ (by omega)).1
      have hstrip : stripPad (b64encode [b1, b2, b3]) =
          [sextetChar (b1 / 4), sextetChar (b1 % 4 * 16 + b2 / 16),
           sextetChar (b2 % 16 * 4 + b3 / 64), sextetChar (b3 % 64)] := by
        show stripPad [sextetChar (b1 / 4), sextetChar (b1 % 4 * 16 + b2 / 16),
          sextetChar (b2 % 16 * 4 + b3 / 64), sextetChar (b3 % 64)] = _
        rw [stripPad_cons_of_len _ _ (by simp), stripPad_cons_of_len _ _ (by simp)]
        show _ :: _ :: (if sextetChar (b3 % 64) = '=' then _ else
          [sextetChar (b2 % 16 * 4 + b3 / 64), sextetChar (b3 % 64)]) = _
        rw [if_neg hc4]
      refine ⟨[b1 / 4, b1 % 4 * 16 + b2 / 16, b2 % 16 * 4 + b3 / 64, b3 % 64],
        ?_, ?_, ?_⟩
      · rw [hstrip, sextetsOf_cons hs1, sextetsOf_cons hs2, sextetsOf_cons hs3,
          sextetsOf_cons hs4]
        rfl
      · show some [b1 / 4 * 4 + (b1 % 4 * 16 + b2 / 16) / 16,
          (b1 % 4 * 16 + b2 / 16) % 16 * 16 + (b2 % 16 * 4 + b3 / 64) / 4,
          (b2 % 16 * 4 + b3 / 64) % 4 * 64 + b3 % 64] = some [b1, b2, b3]
        simp only [Option.some.injEq, List.cons.injEq, and_true]
        refine ⟨by omega, by omega, by omega⟩
      · rw [hstrip]
        simp only [List.length_cons, List.length_nil]
        omega
    · obtain ⟨sxE, hE1, hE2, hE3⟩ := ih hbrest
      have hshape : ∃ x y t, b64encode rest = x :: y :: t := by
        cases hr : rest with
        | nil => exact absurd hr hrest
        | cons r rs =>
          cases rs with
          | nil =>
            exact ⟨sextetChar (r / 4), sextetChar (r % 4 * 16), ['=', '='], rfl⟩
          | cons r2 rs2 =>
            cases rs2 with
            | nil =>
              exact ⟨sextetChar (r / 4), sextetChar (r % 4 * 16 + r2 / 16),
                [sextetChar (r2 % 16 * 4), '='], rfl⟩
            | cons r3 rs3 =>
              exact ⟨sextetChar (r / 4), sextetChar (r % 4 * 16 + r2 / 16),
                sextetChar (r2 % 16 * 4 + r3 / 64) :: sextetChar (r3 % 64) ::
                  b64encode rs3, rfl⟩
      obtain ⟨x, y, t, hxyt⟩ := hshape
      have henc : b64encode (b1 :: b2 :: b3 :: rest) =
          [sextetChar (b1 / 4), sextetChar (b1 % 4 * 16 + b2 / 16),
           sextetChar (b2 % 16 * 4 + b3 / 64), sextetChar (b3 % 64)]
            ++ b64encode rest := rfl
      have hstrip : stripPad (b64encode (b1 :: b2 :: b3 :: rest)) =
          [sextetChar (b1 / 4), sextetChar (b1 % 4 * 16 + b2 / 16),
           sextetChar (b2 % 16 * 4 + b3 / 64), sextetChar (b3 % 64)]
            ++ stripPad (b64encode rest) := by
        rw [henc, hxyt, stripPad_append]
      have hsA : sextetsOf [sextetChar (b1 / 4), sextetChar (b1 % 4 * 16 + b2 / 16),
          sextetChar (b2 % 16 * 4 + b3 / 64), sextetChar (b3 % 64)]
          = some [b1 / 4, b1 % 4 * 16 + b2 / 16, b2 % 16 * 4 + b3 / 64, b3 % 64] := by
        rw [sextetsOf_cons hs1, sextetsOf_cons hs2, sextetsOf_cons hs3,
          sextetsOf_cons hs4]
        rfl
      refine ⟨[b1 / 4, b1 % 4 * 16 + b2 / 16, b2 % 16 * 4 + b3 / 64, b3 % 64] ++ sxE,
        ?_, ?_, ?_⟩
      · rw [hstrip, sextetsOf_append _ _ _ hsA, hE1]
        rfl
      · show (b64decodeGroups sxE).map _ = _
        rw [hE2]
        show some ([b1 / 4 * 4 + (b1 % 4 * 16 + b2 / 16) / 16,
          (b1 % 4 * 16 + b2 / 16) % 16 * 16 + (b2 % 16 * 4 + b3 / 64) / 4,
          (b2 % 16 * 4 + b3 / 64) % 4 * 64 + b3 % 64] ++ rest)
          = some (b1 :: b2 :: b3 :: rest)
        simp only [Option.some.injEq, List.append_eq, List.cons_append,
          List.nil_append, List.cons.injEq, and_true]
        refine ⟨by omega, by omega, by omega⟩
      · rw [hstrip]
        simp only [List.length_append, List.length_cons, List.length_nil]
        omega

theorem atobChars_encode (bytes : List Nat) (hb : ∀ b ∈ bytes, b < 256) :
    atobChars (b64encode bytes) = some bytes := by
  obtain ⟨sx, hsx, hgr, hlen⟩ := b64core bytes hb
  have hfil : (b64encode bytes).filter (fun c => !asciiWhitespace c) = b64encode bytes :=
    List.filter_eq_self.mpr (fun c hc => by
      simp [(b64encode_plain hb c hc).2])
  have hdata : stripData (b64encode bytes) = stripPad (b64encode bytes) := by
    unfold stripData
    rw [hfil, if_pos (b64encode_len_mod bytes)]
  unfold atobChars
  rw [hdata, if_neg hlen, hsx]
  exact hgr

theorem atob_btoa {s : String} (h : ∀ c ∈ s.data, c.toNat ≤ 255) :
    btoa s = some ⟨b64encode (s.data.map Char.toNat)⟩ ∧
    atob ⟨b64encode (s.data.map Char.toNat)⟩ = some s := by
  constructor
  · unfold btoa
    rw [if_pos]
    rw [List.all_eq_true]
    intro c hc
    simpa using h c hc
  · have hb : ∀ b ∈ s.data.map Char.toNat, b < 256 := by
      intro b hbm
      rcases List.mem_map.mp hbm with ⟨c, hc, rfl⟩
      have := h c hc
      omega
    unfold atob
    show (atobChars (b64encode (s.data.map Char.toNat))).map _ = some s
    rw [atobChars_encode _ hb]
    show some (⟨(s.data.map Char.toNat).map Char.ofNat⟩ : String) = some s
    rw [List.map_map]
    have : s.data.map (Char.ofNat ∘ Char.toNat) = s.data := by
      rw [List.map_congr_left (fun c _ => by
        show Char.ofNat c.toNat = c
        exact Char.ofNat_toNat c)]
      exact List.map_id s.data
    rw [this]

theorem formUrlDecode_cons_plain {c : Char} (hc1 : c ≠ '+') (hc2 : c ≠ '%')
    (rest : List Char) : formUrlDecode (c :: rest) = c :: formUrlDecode rest := by
  conv_lhs => rw [formUrlDecode.eq_def]
  split <;> simp_all

theorem formUrlDecode_id :
    ∀ (l : List Char), (∀ c ∈ l, c ≠ '+' ∧ c ≠ '%') → formUrlDecode l = l := by
  intro l
  induction l with
  | nil => intro _; rfl
  | cons c rest ih =>
    intro h
    rw [formUrlDecode_cons_plain (h c (by simp)).1 (h c (by simp)).2,
      ih (fun e he => h e (List.mem_cons_of_mem c he))]

/-! ### C6: the share/load round trip -/

set_option maxRecDepth 100000 in
/-- C6 counterexample: the round trip the claim describes fails on the
program's own data.  For a Cyrillic answer text (the app's default
language is Russian), `btoa` throws on the non-Latin-1 payload and no
share URL is produced at all.  And for a Latin-1 payload whose base64
contains `+` (remark `~` here), the `?r=` transport turns the `+` into a
space, forgiving `atob` strips it, and the decoded string is mojibake
rather than the serialized payload — the load effect's `JSON.parse`
cannot reproduce the session from it. -/
theorem share_roundtrip_fails_cex :
    shareParamValue [(1, ⟨1, 3, "Да", ""⟩)] none = none ∧
    shareParamValue [(1, ⟨1, 3, "x", "~"⟩)] none =
      some "eyJhbnN3ZXJzIjpbWzEseyJxdWVzdGlvbklkIjoxLCJzY29yZSI6Mywib3B0aW9uVGV4dCI6IngiLCJyZW1hcmsiOiJ+In1dXSwid29ybGR2aWV3SW1hZ2VVcmwiOm51bGx9" ∧
    formUrlDecodeStr "eyJhbnN3ZXJzIjpbWzEseyJxdWVzdGlvbklkIjoxLCJzY29yZSI6Mywib3B0aW9uVGV4dCI6IngiLCJyZW1hcmsiOiJ+In1dXSwid29ybGR2aWV3SW1hZ2VVcmwiOm51bGx9"
      ≠ "eyJhbnN3ZXJzIjpbWzEseyJxdWVzdGlvbklkIjoxLCJzY29yZSI6Mywib3B0aW9uVGV4dCI6IngiLCJyZW1hcmsiOiJ+In1dXSwid29ybGR2aWV3SW1hZ2VVcmwiOm51bGx9" ∧
    atob (formUrlDecodeStr "eyJhbnN3ZXJzIjpbWzEseyJxdWVzdGlvbklkIjoxLCJzY29yZSI6Mywib3B0aW9uVGV4dCI6IngiLCJyZW1hcmsiOiJ+In1dXSwid29ybGR2aWV3SW1hZ2VVcmwiOm51bGx9")
      ≠ some (jsonStringify (encodeShare [(1, ⟨1, 3, "x", "~"⟩)] none)) := by
  refine ⟨by decide, by decide, by decide, by decide⟩

/-- C6 amended: encoding the answers map for sharing and decoding it on
load yields an answers map with the same entries — hence the same total
score and per-category breakdown — **provided** the serialized payload
contains only Latin-1 characters (otherwise `btoa` throws and no share
URL is produced) **and** its base64 holds no `+` (otherwise the `?r=`
parameter decoding of `URLSearchParams` turns the `+` into a space and
the payload is corrupted before `atob`).  Under those provisos the `?r=`
value survives the URL transport unchanged, `atob` recovers exactly the
string `JSON.stringify` produced, so `JSON.parse` reproduces the payload
value, from which the `Map` rebuild restores the entries. -/
theorem share_roundtrip_amended (m : List (Nat × Answer)) (url : Option String)
    (hnodup : (m.map Prod.fst).Nodup)
    (hlatin : ∀ c ∈ (jsonStringify (encodeShare m url)).data, c.toNat ≤ 255)
    (hplus : '+' ∉ b64encode ((jsonStringify (encodeShare m url)).data.map Char.toNat)) :
    ∃ b64 m2,
      shareParamValue m url = some b64 ∧
      formUrlDecodeStr b64 = b64 ∧
      atob b64 = some (jsonStringify (encodeShare m url)) ∧
      decodeShare (encodeShare m url) = some (m2, url) ∧
      m2 = m ∧
      totalScore m2 = totalScore m ∧
      ∀ c ∈ questionCategoriesStructure, categoryScore m2 c.2 = categoryScore m c.2 := by
  obtain ⟨h1, h2⟩ := atob_btoa hlatin
  have hb : ∀ b ∈ (jsonStringify (encodeShare m url)).data.map Char.toNat, b < 256 := by
    intro b hbm
    rcases List.mem_map.mp hbm with ⟨c, hc, rfl⟩
    have := hlatin c hc
    omega
  refine ⟨⟨b64encode ((jsonStringify (encodeShare m url)).data.map Char.toNat)⟩, m,
    h1, ?_, h2, decodeShare_encodeShare m url hnodup, rfl, rfl, fun _ _ => rfl⟩
  unfold formUrlDecodeStr
  show (⟨formUrlDecode (b64encode _)⟩ : String) = _
  rw [formUrlDecode_id _ (fun c hc =>
    ⟨fun hc2 => hplus (hc2 ▸ hc), (b64encode_plain hb c hc).1⟩)]

/-- Witness for the amended C6 at a concrete one-answer session whose
base64 is `+`-free. -/
theorem share_roundtrip_amended_witness :
    ∃ b64 m2,
      shareParamValue [(1, ⟨1, 3, "a", ""⟩)] none = some b64 ∧
      formUrlDecodeStr b64 = b64 ∧
      atob b64 = some (jsonStringify (encodeShare [(1, ⟨1, 3, "a", ""⟩)] none)) ∧
      decodeShare (encodeShare [(1, ⟨1, 3, "a", ""⟩)] none) = some (m2, none) ∧
      m2 = [(1, ⟨1, 3, "a", ""⟩)] ∧
      totalScore m2 = totalScore [(1, ⟨1, 3, "a", ""⟩)] ∧
      ∀ c ∈ questionCategoriesStructure,
        categoryScore m2 c.2 = categoryScore [(1, ⟨1, 3, "a", ""⟩)] c.2 :=
  share_roundtrip_amended [(1, ⟨1, 3, "a", ""⟩)] none
    (by decide) (by decide) (by decide)

/-! ### C7: saving the same answer set twice adds no duplicate -/

/-- C7: with the `isSaved` flag synchronized by the effect, invoking the
save operation when a saved result with the same answers already exists
adds no new entry, and saving twice never adds a second entry. -/
theorem handleSaveResults_no_duplicate (st : ResultsState)
    (ans : List (Nat × Answer)) (url : Option String) (now1 now2 : Nat)
    (hsync : st.isSaved = alreadySaved st.savedResults ans) :
    ((∃ r ∈ st.savedResults, r.answers = ans) →
      handleSaveResults now1 ans url st = st) ∧
    (handleSaveResults now2 ans url (handleSaveResults now1 ans url st)).savedResults
      = (handleSaveResults now1 ans url st).savedResults := by
  constructor
  · rintro ⟨r, hr, hre⟩
    have halready : alreadySaved st.savedResults ans = true := by
      unfold alreadySaved
      rw [List.any_eq_true]
      exact ⟨r, hr, by simp [hre]⟩
    unfold handleSaveResults
    rw [hsync, halready]
    simp
  · unfold handleSaveResults
    cases hs : st.isSaved
    · simp [hs]
    · simp [hs]

/-- Witness for C7: a synchronized state that already holds the answer
set, saved twice more. -/
theorem handleSaveResults_no_duplicate_witness :
    ((∃ r ∈ (⟨[⟨5, [(1, ⟨1, 2, "x", ""⟩)], none⟩], true⟩ : ResultsState).savedResults,
        r.answers = [(1, ⟨1, 2, "x", ""⟩)]) →
      handleSaveResults 9 [(1, ⟨1, 2, "x", ""⟩)] none
          ⟨[⟨5, [(1, ⟨1, 2, "x", ""⟩)], none⟩], true⟩
        = ⟨[⟨5, [(1, ⟨1, 2, "x", ""⟩)], none⟩], true⟩) ∧
    (handleSaveResults 10 [(1, ⟨1, 2, "x", ""⟩)] none
        (handleSaveResults 9 [(1, ⟨1, 2, "x", ""⟩)] none
          ⟨[⟨5, [(1, ⟨1, 2, "x", ""⟩)], none⟩], true⟩)).savedResults
      = (handleSaveResults 9 [(1, ⟨1, 2, "x", ""⟩)] none
          ⟨[⟨5, [(1, ⟨1, 2, "x", ""⟩)], none⟩], true⟩).savedResults :=
  handleSaveResults_no_duplicate _ _ _ _ _ (by decide)

/-! ### C9: Next with no option selected -/

/-- C9: in `QuestionCard.handleNext`, when no option is selected: a
non-empty trimmed remark submits an `Answer` with score 0, the localized
custom-answer text and the trimmed remark, and advances the quiz; an
empty trimmed remark submits nothing, does not advance, and only fires
the select-an-option alert. -/
theorem handleNextQC_no_option_selected (qid : Nat) (customText remark : String) :
    handleNextQC qid none remark customText =
      (if (jsTrim remark).isEmpty then ⟨none, false, true⟩
       else ⟨some ⟨qid, 0, customText, jsTrim remark⟩, true, false⟩) := by
  unfold handleNextQC
  cases h : (jsTrim remark).isEmpty <;> simp [h]

/-! ### C10: invalid voice-answer index -/

/-- C10: when the live session delivers a `submitAnswer` call whose
`selectedOptionIndex` has no corresponding entry in the current options
list, no answer is recorded (the answers map is unchanged), yet the voice
modal is closed, the chat history cleared, and the session and audio
resources released, exactly as for a valid index. -/
theorem voice_invalid_index_drops_answer (s : VoiceState)
    (opts : List GeneratedOption) (qid : Nat) (idx : Int) (comment : String)
    (h : jsIndex opts idx = none) :
    (handleSubmitAnswerCall s opts qid idx comment).answers = s.answers ∧
    (handleSubmitAnswerCall s opts qid idx comment).isVoiceModalOpen = false ∧
    (handleSubmitAnswerCall s opts qid idx comment).chatHistory = [] ∧
    (handleSubmitAnswerCall s opts qid idx comment).isAiSpeaking = false ∧
    (handleSubmitAnswerCall s opts qid idx comment).sessionClosed = true ∧
    (handleSubmitAnswerCall s opts qid idx comment).audioReleased = true := by
  unfold handleSubmitAnswerCall
  rw [h]
  exact ⟨rfl, rfl, rfl, rfl, rfl, rfl⟩

/-- Witness for C10: index 7 into a two-option list. -/
theorem voice_invalid_index_drops_answer_witness :
    (handleSubmitAnswerCall ⟨[(3, ⟨3, 1, "t", ""⟩)], true, [⟨.user, "hi"⟩],
        true, false, false⟩ [⟨"a", 1⟩, ⟨"b", 2⟩] 3 7 "c").answers
      = (⟨[(3, ⟨3, 1, "t", ""⟩)], true, [⟨.user, "hi"⟩],
        true, false, false⟩ : VoiceState).answers ∧
    (handleSubmitAnswerCall ⟨[(3, ⟨3, 1, "t", ""⟩)], true, [⟨.user, "hi"⟩],
        true, false, false⟩ [⟨"a", 1⟩, ⟨"b", 2⟩] 3 7 "c").isVoiceModalOpen = false ∧
    (handleSubmitAnswerCall ⟨[(3, ⟨3, 1, "t", ""⟩)], true, [⟨.user, "hi"⟩],
        true, false, false⟩ [⟨"a", 1⟩, ⟨"b", 2⟩] 3 7 "c").chatHistory = [] ∧
    (handleSubmitAnswerCall ⟨[(3, ⟨3, 1, "t", ""⟩)], true, [⟨.user, "hi"⟩],
        true, false, false⟩ [⟨"a", 1⟩, ⟨"b", 2⟩] 3 7 "c").isAiSpeaking = false ∧
    (handleSubmitAnswerCall ⟨[(3, ⟨3, 1, "t", ""⟩)], true, [⟨.user, "hi"⟩],
        true, false, false⟩ [⟨"a", 1⟩, ⟨"b", 2⟩] 3 7 "c").sessionClosed = true ∧
    (handleSubmitAnswerCall ⟨[(3, ⟨3, 1, "t", ""⟩)], true, [⟨.user, "hi"⟩],
        true, false, false⟩ [⟨"a", 1⟩, ⟨"b", 2⟩] 3 7 "c").audioReleased = true :=
  voice_invalid_index_drops_answer _ _ 3 7 "c" (by decide)

end Quiz
